import Mathlib

/-
Verification of the gravitational-wave transient likelihood engine
(`bilby.gw.likelihood`, historically `tupak.gw.likelihood`) against its
natural-language specification.  The module `likelihood.py` itself is not
present in the source tree (only its test suite is), so every definition
below is modelled from the specification document, faithful to its words:
the matched-filter core (spec 4.1), the basic Whittle likelihood (spec 4.2),
the time / phase marginalization engine (spec 4.3), and the facade with its
"no signal" sentinel handling and construction-time prior validation
(spec 4.4, 7, 8).
-/

noncomputable section

open scoped BigOperators
open Complex (I)

/-- Modelled from the spec: `DetectorDataset` (spec section 3) — one
interferometer's complex frequency-domain strain, real one-sided noise PSD and
the boolean frequency mask selecting the analysis band, on a shared grid of
`n` frequency bins with bin `j` at frequency `j / duration`. -/
structure Detector (n : ℕ) where
  strain : Fin n → ℂ
  psd : Fin n → ℝ
  mask : Fin n → Bool

/-- Modelled from the spec (4.1, 4.3): the per-frequency integrand
`conj(data[f]) * signal[f] / PSD[f]` on the masked band, the quantity summed
by `d_inner_h` and fed to the inverse transform by the time-marginalization
engine. -/
def fdIntegrand {n : ℕ} (d : Detector n) (h : Fin n → ℂ) (j : Fin n) : ℂ :=
  if d.mask j then (starRingEnd ℂ) (d.strain j) * h j / (d.psd j : ℂ) else 0

/-- Modelled from the spec (4.1): `d_inner_h = 4/T * sum_[f in mask]
conj(data[f]) * signal[f] / PSD[f]`. -/
def d_inner_h {n : ℕ} (T : ℝ) (d : Detector n) (h : Fin n → ℂ) : ℂ :=
  ((4 / T : ℝ) : ℂ) * ∑ j, fdIntegrand d h j

/-- Modelled from the spec (4.1): `optimal_snr_squared = 4/T * sum_[f in mask]
abs(signal[f])^2 / PSD[f]`. -/
def optimal_snr_squared {n : ℕ} (T : ℝ) (d : Detector n) (h : Fin n → ℂ) : ℝ :=
  4 / T * ∑ j, if d.mask j then Complex.normSq (h j) / d.psd j else 0

/-- Modelled from the spec (4.2): one detector's contribution to the
noise-only baseline, `-2/T * sum_[f in mask] abs(data[f])^2 / PSD[f]` (the
convention-dependent additive constant is omitted consistently in both the
basic and the full variant, as the spec permits). -/
def noiseLogLOne {n : ℕ} (T : ℝ) (d : Detector n) : ℝ :=
  -(2 / T) * ∑ j, if d.mask j then Complex.normSq (d.strain j) / d.psd j else 0

/-- Modelled from the spec (4.2): the noise log likelihood summed over the
detector network. -/
def noiseLogLTotal {m n : ℕ} (T : ℝ) (dets : Fin m → Detector n) : ℝ :=
  ∑ i, noiseLogLOne T (dets i)

/-- Modelled from the spec (4.2): the non-marginalized log likelihood ratio
`sum_detectors (Re[d_inner_h] - optimal_snr_squared / 2)`. -/
def basicLogLRatio {m n : ℕ} (T : ℝ) (dets : Fin m → Detector n)
    (sig : Fin m → Fin n → ℂ) : ℝ :=
  ∑ i, ((d_inner_h T (dets i) (sig i)).re - optimal_snr_squared T (dets i) (sig i) / 2)

/-- Modelled from the spec (4.3): half the network-summed optimal SNR squared,
the time-shift- and phase-invariant part of every marginalized likelihood. -/
def snrSumHalf {m n : ℕ} (T : ℝ) (dets : Fin m → Detector n)
    (sig : Fin m → Fin n → ℂ) : ℝ :=
  (∑ i, optimal_snr_squared T (dets i) (sig i)) / 2

/-- Modelled from the spec (4.4, 7): the invalid-result sentinel
`np.nan_to_num(-inf)`, the most negative finite double,
`-1.7976931348623157e308`. -/
def sentinel : ℝ :=
  -(17976931348623157 * 10 ^ 292)

/-- Modelled from the spec (4.3): the zeroth-order modified Bessel function of
the first kind, through its generating integral
`I0(x) = (1/(2*pi)) * integral_0^(2*pi) exp(x * cos theta) d theta`. -/
def besselI0 (x : ℝ) : ℝ :=
  (1 / (2 * Real.pi)) * ∫ θ in (0:ℝ)..(2 * Real.pi), Real.exp (x * Real.cos θ)

/-- Modelled from the spec (4.3): coalescence phase enters as the pure complex
rotation `signal(phi) = signal(0) * exp(-2 i phi)`. -/
def phaseRotate {n : ℕ} (h : Fin n → ℂ) (φ : ℝ) : Fin n → ℂ :=
  fun j => h j * Complex.exp ((-(2 * φ) : ℝ) * I)

/-- Modelled from the spec (4.3): a time shift `dt` applied to the signal
multiplies bin `j` (frequency `j / T`) by `exp(2 pi i f dt)`. -/
def timeShift {n : ℕ} (T : ℝ) (h : Fin n → ℂ) (dt : ℝ) : Fin n → ℂ :=
  fun j => h j * Complex.exp ((2 * Real.pi * ((j : ℕ) : ℝ) / T * dt : ℝ) * I)

/-- Modelled from the spec (4.3): the inverse discrete transform of the
frequency-domain integrand, giving the time-domain matched-filter series at
sample `k` of `N` uniform samples covering one full period of `T` seconds;
the transform kernel at bin `j`, sample `k` is `exp(2 pi i j k / N)`. -/
def dftMatchedFilter {n : ℕ} (T : ℝ) (N : ℕ) (d : Detector n) (h : Fin n → ℂ)
    (k : ℕ) : ℂ :=
  ((4 / T : ℝ) : ℂ) *
    ∑ j, fdIntegrand d h j *
      Complex.exp ((2 * Real.pi * ((j : ℕ) : ℝ) * (k : ℝ) / (N : ℝ) : ℝ) * I)

/-- Modelled from the spec (4.3, 8): the trapezoidal rule on a uniform grid of
`N` points with spacing `dx` (the quadrature used both by the engine over its
native time samples and by the brute-force reference integrals). -/
def utrapz (dx : ℝ) (N : ℕ) (v : ℕ → ℝ) : ℝ :=
  ∑ k ∈ Finset.range (N - 1), dx * (v k + v (k + 1)) / 2

/-- Modelled from the spec (4.3, phase marginalization): the closed form
`log(I0(abs(sum_detectors d_inner_h))) - snrSumHalf`. -/
def phaseMargLogLRatio {m n : ℕ} (T : ℝ) (dets : Fin m → Detector n)
    (sig : Fin m → Fin n → ℂ) : ℝ :=
  Real.log (besselI0 (Complex.abs (∑ i, d_inner_h T (dets i) (sig i)))) -
    snrSumHalf T dets sig

/-- Modelled from the spec (4.3, time marginalization): exponentiate the
network-summed time-domain matched filter minus the invariant SNR term at each
of the `N` time samples, integrate with the trapezoidal rule over the prior
window (here one full period, step `T/N`), divide by the prior duration, and
take the logarithm. -/
def timeMargLogLRatio {m n : ℕ} (T : ℝ) (N : ℕ) (dets : Fin m → Detector n)
    (sig : Fin m → Fin n → ℂ) (priorDur : ℝ) : ℝ :=
  Real.log (utrapz (T / N) N
    (fun k => Real.exp ((∑ i, (dftMatchedFilter T N (dets i) (sig i) k).re) -
      snrSumHalf T dets sig)) / priorDur)

/-- Modelled from the spec (4.3, combined time+phase marginalization): phase
is marginalized inside the per-time-sample integrand — the Bessel closed form
is applied to each time-shifted network `d_inner_h` value — before the time
integral runs. -/
def timePhaseMargLogLRatio {m n : ℕ} (T : ℝ) (N : ℕ) (dets : Fin m → Detector n)
    (sig : Fin m → Fin n → ℂ) (priorDur : ℝ) : ℝ :=
  Real.log (utrapz (T / N) N
    (fun k => Real.exp
      (Real.log (besselI0 (Complex.abs (∑ i, dftMatchedFilter T N (dets i) (sig i) k))) -
        snrSumHalf T dets sig)) / priorDur)

/-- Modelled from the spec (3, 4.1): `complex_matched_filter_snr =
d_inner_h / sqrt(optimal_snr_squared)`, defined as `0` when
`optimal_snr_squared` is `0` (the division by zero is guarded). -/
def complex_matched_filter_snr {n : ℕ} (T : ℝ) (d : Detector n)
    (h : Fin n → ℂ) : ℂ :=
  if optimal_snr_squared T d h = 0 then 0
  else d_inner_h T d h / ((Real.sqrt (optimal_snr_squared T d h) : ℝ) : ℂ)

/-- Modelled from the spec (4.4): the transient likelihood facade.
`signalFor` is the composition of the external waveform generator with the
per-detector projection: for a parameter set it yields either the projected
per-detector frequency-domain responses or the "no signal" sentinel `none`.
`nTimeSamples` is the number of native time samples (`T * fs`) used by the
time-marginalization transform, and `priorDuration` the width of the uniform
time prior. -/
structure GravitationalWaveTransient (P : Type) (m n : ℕ) where
  duration : ℝ
  nTimeSamples : ℕ
  dets : Fin m → Detector n
  signalFor : P → Option (Fin m → Fin n → ℂ)
  time_marginalization : Bool
  phase_marginalization : Bool
  priorDuration : ℝ

/-- Modelled from the spec (4.2, 4.4): the noise-only baseline of the facade;
depends only on the detector datasets. -/
def GravitationalWaveTransient.noise_log_likelihood {P : Type} {m n : ℕ}
    (L : GravitationalWaveTransient P m n) : ℝ :=
  noiseLogLTotal L.duration L.dets

/-- Modelled from the spec (4.4): `log_likelihood_ratio()` dispatches on the
marginalization flags — basic (spec 4.2) with no flags, or the appropriate
spec-4.3 strategy — and returns the sentinel when the generator reports
"no signal". -/
def GravitationalWaveTransient.log_likelihood_ratio {P : Type} {m n : ℕ}
    (L : GravitationalWaveTransient P m n) (θ : P) : ℝ :=
  match L.signalFor θ with
  | none => sentinel
  | some sig =>
    if L.time_marginalization then
      if L.phase_marginalization then
        timePhaseMargLogLRatio L.duration L.nTimeSamples L.dets sig L.priorDuration
      else
        timeMargLogLRatio L.duration L.nTimeSamples L.dets sig L.priorDuration
    else
      if L.phase_marginalization then
        phaseMargLogLRatio L.duration L.dets sig
      else
        basicLogLRatio L.duration L.dets sig

/-- Modelled from the spec (4.4): `log_likelihood()` — the sentinel when the
generator reports "no signal", otherwise
`noise_log_likelihood() + log_likelihood_ratio()`. -/
def GravitationalWaveTransient.log_likelihood {P : Type} {m n : ℕ}
    (L : GravitationalWaveTransient P m n) (θ : P) : ℝ :=
  match L.signalFor θ with
  | none => sentinel
  | some _ => L.noise_log_likelihood + L.log_likelihood_ratio θ

/-- Modelled from the spec (2, 4.2, glossary): the basic variant evaluates the
standard Gaussian-noise Whittle likelihood directly on the residual
`data - signal`: `-2/T * sum_[f in mask] abs(data[f] - signal[f])^2 / PSD[f]`
per detector. -/
def residualLogL {n : ℕ} (T : ℝ) (d : Detector n) (h : Fin n → ℂ) : ℝ :=
  -(2 / T) * ∑ j, if d.mask j then Complex.normSq (d.strain j - h j) / d.psd j else 0

/-- Modelled from the spec (4.2, 9): the basic (non-marginalizing) likelihood
variant, holding only the detector network and the generator composition. -/
structure BasicGravitationalWaveTransient (P : Type) (m n : ℕ) where
  duration : ℝ
  dets : Fin m → Detector n
  signalFor : P → Option (Fin m → Fin n → ℂ)

/-- Modelled from the spec (4.2): the basic variant's noise log likelihood. -/
def BasicGravitationalWaveTransient.noise_log_likelihood {P : Type} {m n : ℕ}
    (L : BasicGravitationalWaveTransient P m n) : ℝ :=
  ∑ i, noiseLogLOne L.duration (L.dets i)

/-- Modelled from the spec (4.2, 4.4): the basic variant's log likelihood —
the sentinel when the generator reports "no signal", otherwise the summed
per-detector residual Whittle likelihood. -/
def BasicGravitationalWaveTransient.log_likelihood {P : Type} {m n : ℕ}
    (L : BasicGravitationalWaveTransient P m n) (θ : P) : ℝ :=
  match L.signalFor θ with
  | none => sentinel
  | some sig => ∑ i, residualLogL L.duration (L.dets i) (sig i)

/-- Modelled from the spec (6, prior contract): an entry of the prior mapping
is either a distribution exposing `minimum` and `maximum` bounds or a fixed
value (a marginalized parameter replaced by a constant). -/
inductive PriorEntry where
  | uniformOn (minimum maximum : ℝ)
  | fixedValue (value : ℝ)
deriving DecidableEq

/-- Modelled from the spec (6): the prior mapping from parameter name to
entry, as an association list. -/
abbrev PriorMap : Type := List (String × PriorEntry)

/-- Modelled from the spec (6): look a parameter up in the prior mapping. -/
def lookupPrior (k : String) (p : PriorMap) : Option PriorEntry :=
  List.lookup k p

/-- Modelled from the spec (6): overwrite (or insert) a parameter's entry in
the prior mapping. -/
def setPrior (p : PriorMap) (k : String) (v : PriorEntry) : PriorMap :=
  (k, v) :: List.filter (fun e => !(e.1 == k)) p

/-- Modelled from the spec (4.4): the arguments of
`GravitationalWaveTransient.__init__` that construction-time validation
consults: the three marginalization flags, the optionally supplied prior
mapping, and the data segment's start time and duration. -/
structure ConstructArgs where
  time_marginalization : Bool
  phase_marginalization : Bool
  distance_marginalization : Bool
  priorArg : Option PriorMap
  startTime : ℝ
  duration : ℝ

/-- Modelled from the spec (4.4): the outcome of a successful construction —
the instance's own prior mapping (with any synthesized default
marginalization priors) and the supplied mapping after the side-effecting
overwrite of marginalized parameters by fixed values. -/
structure Constructed where
  prior : PriorMap
  updatedArg : PriorMap

/-- Modelled from the spec (4.4, 7, 8): construction-time validation.  A
marginalization enabled with no prior mapping supplied is a `ValueError`;
distance marginalization without an explicit distance prior entry is a
`ValueError` (never silently defaulted); time (resp. phase) marginalization
without an explicit `geocent_time` (resp. `phase`) entry synthesizes a
uniform prior over `[startTime, startTime + duration]` (resp. `[0, 2*pi)`)
and overwrites that parameter's entry in the supplied mapping with the
synthesized minimum as a fixed value. -/
def construct (a : ConstructArgs) : Except String Constructed :=
  match a.priorArg with
  | none =>
      if a.time_marginalization || a.phase_marginalization ||
          a.distance_marginalization then
        Except.error "ValueError: marginalization requested without a prior"
      else
        Except.ok { prior := [], updatedArg := [] }
  | some p =>
      if a.distance_marginalization &&
          (lookupPrior "luminosity_distance" p).isNone then
        Except.error "ValueError: distance marginalization requires a distance prior"
      else
        let s1 : PriorMap × PriorMap :=
          if a.time_marginalization && (lookupPrior "geocent_time" p).isNone then
            (setPrior p "geocent_time"
              (PriorEntry.uniformOn a.startTime (a.startTime + a.duration)),
             setPrior p "geocent_time" (PriorEntry.fixedValue a.startTime))
          else (p, p)
        let s2 : PriorMap × PriorMap :=
          if a.phase_marginalization && (lookupPrior "phase" s1.1).isNone then
            (setPrior s1.1 "phase" (PriorEntry.uniformOn 0 (2 * Real.pi)),
             setPrior s1.2 "phase" (PriorEntry.fixedValue 0))
          else s1
        Except.ok { prior := s2.1, updatedArg := s2.2 }

/-- Modelled from the spec (8, phase marginalization convergence): the
brute-force phase-marginalization reference — the integral of
`exp(log_likelihood_ratio(phase))` over `[0, 2*pi)`, normalized by `2*pi`
and log-transformed; this is the quantity the test's 1000-point trapezoidal
quadrature approximates, formalized as the exact integral. -/
def brutePhaseMarg {m n : ℕ} (T : ℝ) (dets : Fin m → Detector n)
    (sig : Fin m → Fin n → ℂ) : ℝ :=
  Real.log ((1 / (2 * Real.pi)) *
    ∫ φ in (0:ℝ)..(2 * Real.pi),
      Real.exp (basicLogLRatio T dets (fun i => phaseRotate (sig i) φ)))

/-- Modelled from the spec (8, time marginalization convergence): the
brute-force time-marginalization reference — the trapezoidal integral of
`exp(log_likelihood_ratio(dt))`, recomputed through the full
non-marginalized pipeline at each shifted time, over the fine uniform grid
of `N` points with spacing `T/N` spanning the time prior, divided by the
prior's duration and log-transformed. -/
def bruteTimeMarg {m n : ℕ} (T : ℝ) (N : ℕ) (dets : Fin m → Detector n)
    (sig : Fin m → Fin n → ℂ) (priorDur : ℝ) : ℝ :=
  Real.log (utrapz (T / N) N
    (fun k => Real.exp (basicLogLRatio T dets
      (fun i => timeShift T (sig i) ((k : ℝ) * T / (N : ℝ))))) / priorDur)

/-- Modelled from the spec (8, combined time+phase): the brute-force time
integral of the phase-marginalized likelihood over the fine uniform grid
spanning the time prior. -/
def bruteTimeOfPhaseMarg {m n : ℕ} (T : ℝ) (N : ℕ) (dets : Fin m → Detector n)
    (sig : Fin m → Fin n → ℂ) (priorDur : ℝ) : ℝ :=
  Real.log (utrapz (T / N) N
    (fun k => Real.exp (phaseMargLogLRatio T dets
      (fun i => timeShift T (sig i) ((k : ℝ) * T / (N : ℝ))))) / priorDur)

/-- Modelled from the spec (8, combined time+phase): the brute-force phase
integral of the time-marginalized likelihood over `[0, 2*pi)`, normalized by
`2*pi` and log-transformed. -/
def brutePhaseOfTimeMarg {m n : ℕ} (T : ℝ) (N : ℕ) (dets : Fin m → Detector n)
    (sig : Fin m → Fin n → ℂ) (priorDur : ℝ) : ℝ :=
  Real.log ((1 / (2 * Real.pi)) *
    ∫ φ in (0:ℝ)..(2 * Real.pi),
      Real.exp (timeMargLogLRatio T N dets
        (fun i => phaseRotate (sig i) φ) priorDur))

/-- A concrete one-bin detector dataset with an empty analysis band, used to
evaluate the theorems below on explicit inputs. -/
def detUnmasked : Detector 1 :=
  { strain := fun _ => 0, psd := fun _ => 1, mask := fun _ => false }

/-- A concrete trivial per-detector signal for the same purpose. -/
def trivialSignal : Fin 1 → Fin 1 → ℂ := fun _ _ => 0

/-- A concrete facade with no marginalization whose generator always returns a
signal. -/
def facadeBasic : GravitationalWaveTransient Unit 1 1 :=
  { duration := 1, nTimeSamples := 2, dets := fun _ => detUnmasked,
    signalFor := fun _ => some trivialSignal,
    time_marginalization := false, phase_marginalization := false,
    priorDuration := 1 }

/-- A concrete facade whose generator always reports "no signal". -/
def facadeNone : GravitationalWaveTransient Unit 1 1 :=
  { facadeBasic with signalFor := fun _ => none }

/-- A concrete facade with time marginalization enabled. -/
def facadeTime : GravitationalWaveTransient Unit 1 1 :=
  { facadeBasic with time_marginalization := true }

/-- A concrete facade with phase marginalization enabled. -/
def facadePhase : GravitationalWaveTransient Unit 1 1 :=
  { facadeBasic with phase_marginalization := true }

/-- A concrete facade with both time and phase marginalization enabled. -/
def facadeTimePhase : GravitationalWaveTransient Unit 1 1 :=
  { facadeBasic with time_marginalization := true, phase_marginalization := true }

/-- Concrete construction arguments: phase marginalization requested with no
prior mapping supplied. -/
def argsPhaseNoPrior : ConstructArgs :=
  { time_marginalization := false, phase_marginalization := true,
    distance_marginalization := false, priorArg := none,
    startTime := 0, duration := 4 }

/-- Concrete construction arguments: distance marginalization requested with a
prior mapping lacking a distance entry. -/
def argsDistNoDistPrior : ConstructArgs :=
  { time_marginalization := false, phase_marginalization := false,
    distance_marginalization := true, priorArg := some [],
    startTime := 0, duration := 4 }

/-- Concrete construction arguments mirroring the time-prior test: only time
marginalization requested, the supplied mapping has a `phase` entry but no
`geocent_time` entry. -/
def argsTimeOnly : ConstructArgs :=
  { time_marginalization := true, phase_marginalization := false,
    distance_marginalization := false,
    priorArg := some [("phase", PriorEntry.uniformOn 0 (2 * Real.pi))],
    startTime := 0, duration := 4 }

/-- Concrete construction arguments mirroring the phase-prior test: only
phase marginalization requested, the supplied mapping has a `geocent_time`
entry but no `phase` entry. -/
def argsPhaseOnly : ConstructArgs :=
  { time_marginalization := false, phase_marginalization := true,
    distance_marginalization := false,
    priorArg := some [("geocent_time", PriorEntry.uniformOn 0 4)],
    startTime := 0, duration := 4 }

/-! ### Theorems -/

/-- Claim C1: for every configuration of the transient likelihood (no
marginalization, time, phase, or both — the facade is quantified over all
flag settings), whenever the waveform generator returns a signal,
`log_likelihood_ratio()` equals `log_likelihood() - noise_log_likelihood()`
exactly, hence in particular to at least 3 decimal places. -/
theorem log_ratio_eq_log_likelihood_sub_noise {P : Type} {m n : ℕ}
    (L : GravitationalWaveTransient P m n) (θ : P)
    (sig : Fin m → Fin n → ℂ) (hsig : L.signalFor θ = some sig) :
    L.log_likelihood_ratio θ = L.log_likelihood θ - L.noise_log_likelihood := by
  simp only [GravitationalWaveTransient.log_likelihood, hsig]
  ring

/-- Witness for C1: the identity evaluated on a concrete facade whose
generator returns a signal. -/
theorem log_ratio_eq_log_likelihood_sub_noise_witness :
    facadeBasic.log_likelihood_ratio () =
      facadeBasic.log_likelihood () - facadeBasic.noise_log_likelihood :=
  log_ratio_eq_log_likelihood_sub_noise facadeBasic () trivialSignal rfl

/-- Claim C2: for every parameter set for which the waveform generator
returns the "no signal" sentinel (`none`), `log_likelihood_ratio()` returns
exactly the invalid-value sentinel `np.nan_to_num(-inf)` (the most negative
finite double); the embedding is a total function, so no exception is
raised. -/
theorem no_signal_gives_sentinel {P : Type} {m n : ℕ}
    (L : GravitationalWaveTransient P m n) (θ : P)
    (hnone : L.signalFor θ = none) :
    L.log_likelihood_ratio θ = sentinel := by
  simp only [GravitationalWaveTransient.log_likelihood_ratio, hnone]

/-- Witness for C2: the sentinel returned on a concrete facade whose
generator reports "no signal". -/
theorem no_signal_gives_sentinel_witness :
    facadeNone.log_likelihood_ratio () = sentinel :=
  no_signal_gives_sentinel facadeNone () rfl

/-- Claim C9: for every per-detector matched-filter evaluation,
`complex_matched_filter_snr` equals `d_inner_h / sqrt(optimal_snr_squared)`
when `optimal_snr_squared` is positive, and is defined as `0` when
`optimal_snr_squared` is `0`; the zero case is guarded, and the embedding is
a total function producing no error. -/
theorem matched_filter_snr_guard {n : ℕ} (T : ℝ) (d : Detector n)
    (h : Fin n → ℂ) :
    (0 < optimal_snr_squared T d h →
      complex_matched_filter_snr T d h =
        d_inner_h T d h / ((Real.sqrt (optimal_snr_squared T d h) : ℝ) : ℂ)) ∧
    (optimal_snr_squared T d h = 0 → complex_matched_filter_snr T d h = 0) := by
  constructor
  · intro hpos
    rw [complex_matched_filter_snr, if_neg (ne_of_gt hpos)]
  · intro h0
    rw [complex_matched_filter_snr, if_pos h0]

/-- Witness for C9: the guarded zero case evaluated on a concrete detector
with an empty analysis band, where the optimal SNR vanishes. -/
theorem matched_filter_snr_guard_witness :
    complex_matched_filter_snr 1 detUnmasked (fun _ => 0) = 0 :=
  (matched_filter_snr_guard 1 detUnmasked (fun _ => 0)).2
    (by simp [optimal_snr_squared, detUnmasked])

/-- Helper: the real part of `d_inner_h` as a real masked sum. -/
lemma d_inner_h_re {n : ℕ} (T : ℝ) (d : Detector n) (h : Fin n → ℂ) :
    (d_inner_h T d h).re =
      ∑ j, 4 / T * (if d.mask j
        then ((starRingEnd ℂ) (d.strain j) * h j).re / d.psd j else 0) := by
  rw [d_inner_h, Complex.re_ofReal_mul, Complex.re_sum, Finset.mul_sum]
  refine Finset.sum_congr rfl fun j _ => ?_
  rw [fdIntegrand, apply_ite Complex.re, Complex.zero_re, Complex.div_ofReal_re]

/-- Helper: the residual Whittle likelihood of one detector decomposes into
the noise baseline plus the matched-filter combination. -/
lemma residual_decomp {n : ℕ} (T : ℝ) (d : Detector n) (h : Fin n → ℂ) :
    residualLogL T d h =
      noiseLogLOne T d +
        ((d_inner_h T d h).re - optimal_snr_squared T d h / 2) := by
  rw [residualLogL, noiseLogLOne, optimal_snr_squared, d_inner_h_re,
    Finset.mul_sum, Finset.mul_sum, Finset.mul_sum, Finset.sum_div,
    ← Finset.sum_sub_distrib, ← Finset.sum_add_distrib]
  refine Finset.sum_congr rfl fun j _ => ?_
  by_cases hm : d.mask j
  · simp only [hm, if_true]
    have hns : Complex.normSq (d.strain j - h j) =
        Complex.normSq (d.strain j) + Complex.normSq (h j) -
          2 * ((starRingEnd ℂ) (d.strain j) * h j).re := by
      rw [Complex.normSq_sub]
      congr 2
      rw [← Complex.conj_re (d.strain j * (starRingEnd ℂ) (h j))]
      simp
    rw [hns, sub_div, add_div]
    ring
  · simp [hm]

/-- Claim C10: for the same duration, detector network, and
generator-plus-projection composition, the basic variant
(`BasicGravitationalWaveTransient`, evaluating the residual Whittle Gaussian
likelihood directly) and the full variant (`GravitationalWaveTransient` with
no marginalization flags set) return equal `noise_log_likelihood()` and equal
`log_likelihood()` — exactly, hence to at least 3 decimal places — for every
parameter point, including the "no signal" sentinel case. -/
theorem basic_and_full_variant_agree {P : Type} {m n : ℕ} (T : ℝ) (Nt : ℕ)
    (D : ℝ) (dets : Fin m → Detector n)
    (gen : P → Option (Fin m → Fin n → ℂ)) (θ : P) :
    (BasicGravitationalWaveTransient.mk T dets gen).noise_log_likelihood =
      (GravitationalWaveTransient.mk T Nt dets gen false false D).noise_log_likelihood ∧
    (BasicGravitationalWaveTransient.mk T dets gen).log_likelihood θ =
      (GravitationalWaveTransient.mk T Nt dets gen false false D).log_likelihood θ := by
  constructor
  · rfl
  · cases hg : gen θ with
    | none =>
      simp only [BasicGravitationalWaveTransient.log_likelihood,
        GravitationalWaveTransient.log_likelihood, hg]
    | some sig =>
      simp only [BasicGravitationalWaveTransient.log_likelihood,
        GravitationalWaveTransient.log_likelihood,
        GravitationalWaveTransient.log_likelihood_ratio,
        GravitationalWaveTransient.noise_log_likelihood, hg,
        Bool.false_eq_true, if_false, noiseLogLTotal, basicLogLRatio]
      rw [← Finset.sum_add_distrib]
      exact Finset.sum_congr rfl fun i _ => residual_decomp T (dets i) (sig i)

/-- Helper: a key absent from a prior mapping is absent from any filtered
sublist of it. -/
lemma lookupPrior_filter_none {j : String} {p : PriorMap}
    (q : String × PriorEntry → Bool) (hnone : lookupPrior j p = none) :
    lookupPrior j (List.filter q p) = none := by
  induction p with
  | nil => simp [lookupPrior]
  | cons e t ih =>
    rw [lookupPrior, List.lookup] at hnone
    rcases hbeq : (j == e.1) with _ | _
    · rw [hbeq] at hnone
      simp only [lookupPrior, List.filter]
      rcases hq : q e with _ | _
      · exact ih hnone
      · rw [List.lookup]
        rw [hbeq]
        exact ih hnone
    · rw [hbeq] at hnone
      simp at hnone

/-- Helper: looking up the key just written by `setPrior`. -/
lemma lookupPrior_setPrior_same (p : PriorMap) (k : String) (v : PriorEntry) :
    lookupPrior k (setPrior p k v) = some v := by
  simp [lookupPrior, setPrior, List.lookup]

/-- Helper: a key distinct from the written one and absent before `setPrior`
is still absent afterwards. -/
lemma lookupPrior_setPrior_ne_none {j k : String} (p : PriorMap)
    (v : PriorEntry) (hne : (j == k) = false)
    (hnone : lookupPrior j p = none) :
    lookupPrior j (setPrior p k v) = none := by
  rw [setPrior, lookupPrior, List.lookup, hne]
  exact lookupPrior_filter_none _ hnone

/-- Helper: writing a second, distinct key does not shadow the first written
one. -/
lemma lookupPrior_setPrior_setPrior {p : PriorMap} {k1 k2 : String}
    {v1 v2 : PriorEntry} (hne : (k1 == k2) = false) :
    lookupPrior k1 (setPrior (setPrior p k1 v1) k2 v2) = some v1 := by
  rw [setPrior, setPrior, lookupPrior, List.lookup, hne, List.filter_cons]
  have hkeep : (!((k1, v1).1 == k2)) = true := by
    rw [hne]
    rfl
  rw [hkeep]
  simp [List.lookup]

/-- Claim C6: for every construction with time (resp. phase) marginalization
enabled — whatever the state of the other marginalization flag — and no
explicit prior entry for the corresponding parameter, a default prior is
synthesized: uniform over `[startTime, startTime + duration]` for
`geocent_time`, uniform `[0, 2*pi)` for `phase`; and, as a side effect, the
supplied mapping's entry for that parameter is overwritten with the
synthesized minimum as a fixed value (`geocent_time` becomes the time
prior's minimum, `phase` becomes `0`), so it is no longer a variable
entry. -/
theorem default_marginalization_priors (a : ConstructArgs) (p : PriorMap)
    (hp : a.priorArg = some p)
    (hd : a.distance_marginalization = false) :
    (a.time_marginalization = true → lookupPrior "geocent_time" p = none →
      ∃ c : Constructed, construct a = Except.ok c ∧
        lookupPrior "geocent_time" c.prior =
          some (PriorEntry.uniformOn a.startTime (a.startTime + a.duration)) ∧
        lookupPrior "geocent_time" c.updatedArg =
          some (PriorEntry.fixedValue a.startTime)) ∧
    (a.phase_marginalization = true → lookupPrior "phase" p = none →
      ∃ c : Constructed, construct a = Except.ok c ∧
        lookupPrior "phase" c.prior =
          some (PriorEntry.uniformOn 0 (2 * Real.pi)) ∧
        lookupPrior "phase" c.updatedArg = some (PriorEntry.fixedValue 0)) := by
  have hne : (("phase" : String) == "geocent_time") = false := by decide
  have hne2 : (("geocent_time" : String) == "phase") = false := by decide
  constructor
  · intro ht hgt
    by_cases hc : (a.phase_marginalization &&
        (lookupPrior "phase" (setPrior p "geocent_time"
          (PriorEntry.uniformOn a.startTime (a.startTime + a.duration)))).isNone)
        = true
    · have hcon : construct a = Except.ok
          { prior := setPrior
              (setPrior p "geocent_time"
                (PriorEntry.uniformOn a.startTime (a.startTime + a.duration)))
              "phase" (PriorEntry.uniformOn 0 (2 * Real.pi)),
            updatedArg := setPrior
              (setPrior p "geocent_time" (PriorEntry.fixedValue a.startTime))
              "phase" (PriorEntry.fixedValue 0) } := by
        simp [construct, hp, hd, ht, hgt, hc]
      exact ⟨_, hcon, lookupPrior_setPrior_setPrior hne2,
        lookupPrior_setPrior_setPrior hne2⟩
    · have hcon : construct a = Except.ok
          { prior := setPrior p "geocent_time"
              (PriorEntry.uniformOn a.startTime (a.startTime + a.duration)),
            updatedArg := setPrior p "geocent_time"
              (PriorEntry.fixedValue a.startTime) } := by
        simp [construct, hp, hd, ht, hgt, hc]
      exact ⟨_, hcon, lookupPrior_setPrior_same _ _ _,
        lookupPrior_setPrior_same _ _ _⟩
  · intro hph hpp
    by_cases hc : (a.time_marginalization &&
        (lookupPrior "geocent_time" p).isNone) = true
    · have habsent : lookupPrior "phase"
          (setPrior p "geocent_time"
            (PriorEntry.uniformOn a.startTime (a.startTime + a.duration))) = none :=
        lookupPrior_setPrior_ne_none p _ hne hpp
      have hcon : construct a = Except.ok
          { prior := setPrior
              (setPrior p "geocent_time"
                (PriorEntry.uniformOn a.startTime (a.startTime + a.duration)))
              "phase" (PriorEntry.uniformOn 0 (2 * Real.pi)),
            updatedArg := setPrior
              (setPrior p "geocent_time" (PriorEntry.fixedValue a.startTime))
              "phase" (PriorEntry.fixedValue 0) } := by
        simp [construct, hp, hd, hph, hc, habsent]
      exact ⟨_, hcon, lookupPrior_setPrior_same _ _ _,
        lookupPrior_setPrior_same _ _ _⟩
    · have hcon : construct a = Except.ok
          { prior := setPrior p "phase" (PriorEntry.uniformOn 0 (2 * Real.pi)),
            updatedArg := setPrior p "phase" (PriorEntry.fixedValue 0) } := by
        simp [construct, hp, hd, hph, hc, hpp]
      exact ⟨_, hcon, lookupPrior_setPrior_same _ _ _,
        lookupPrior_setPrior_same _ _ _⟩

/-- Witness for C6: the default-prior synthesis evaluated on the two concrete
single-flag constructions mirroring the cited tests — time marginalization
only with no `geocent_time` entry, and phase marginalization only with no
`phase` entry. -/
theorem default_marginalization_priors_witness :
    (∃ c : Constructed, construct argsTimeOnly = Except.ok c ∧
      lookupPrior "geocent_time" c.prior =
        some (PriorEntry.uniformOn argsTimeOnly.startTime
          (argsTimeOnly.startTime + argsTimeOnly.duration)) ∧
      lookupPrior "geocent_time" c.updatedArg =
        some (PriorEntry.fixedValue argsTimeOnly.startTime)) ∧
    (∃ c : Constructed, construct argsPhaseOnly = Except.ok c ∧
      lookupPrior "phase" c.prior =
        some (PriorEntry.uniformOn 0 (2 * Real.pi)) ∧
      lookupPrior "phase" c.updatedArg = some (PriorEntry.fixedValue 0)) :=
  ⟨(default_marginalization_priors argsTimeOnly
      [("phase", PriorEntry.uniformOn 0 (2 * Real.pi))] rfl rfl).1 rfl rfl,
   (default_marginalization_priors argsPhaseOnly
      [("geocent_time", PriorEntry.uniformOn 0 4)] rfl rfl).2 rfl rfl⟩

/-- Claim C7: constructing with a marginalization enabled but no prior
supplied is a configuration error raised at construction time (the
`ValueError` branch of `construct`), and distance marginalization with a
prior mapping lacking a distance entry is likewise an error, never silently
defaulted. -/
theorem construction_requires_prior (a : ConstructArgs) (p : PriorMap) :
    (a.priorArg = none →
      (a.time_marginalization || a.phase_marginalization ||
        a.distance_marginalization) = true →
      construct a =
        Except.error "ValueError: marginalization requested without a prior") ∧
    (a.priorArg = some p → a.distance_marginalization = true →
      lookupPrior "luminosity_distance" p = none →
      construct a =
        Except.error
          "ValueError: distance marginalization requires a distance prior") := by
  constructor
  · intro hnone hflag
    simp [construct, hnone, hflag]
  · intro hsome hdist hlook
    simp [construct, hsome, hdist, hlook]

/-- Witness for C7: both error branches evaluated on concrete construction
arguments — phase marginalization with no prior, and distance
marginalization with a mapping lacking a distance entry. -/
theorem construction_requires_prior_witness :
    construct argsPhaseNoPrior =
      Except.error "ValueError: marginalization requested without a prior" ∧
    construct argsDistNoDistPrior =
      Except.error
        "ValueError: distance marginalization requires a distance prior" :=
  ⟨(construction_requires_prior argsPhaseNoPrior []).1 rfl rfl,
   (construction_requires_prior argsDistNoDistPrior []).2 rfl rfl rfl⟩

/-- Helper: the masked integrand is linear in a per-bin factor on the
signal. -/
lemma fdIntegrand_phaseRotate {n : ℕ} (d : Detector n) (h : Fin n → ℂ)
    (φ : ℝ) (j : Fin n) :
    fdIntegrand d (phaseRotate h φ) j =
      fdIntegrand d h j * Complex.exp ((-(2 * φ) : ℝ) * I) := by
  unfold fdIntegrand phaseRotate
  by_cases hm : d.mask j
  · simp only [hm, if_true]
    ring
  · simp [hm]

/-- Helper: the masked integrand of a time-shifted signal picks up the
per-bin transform kernel. -/
lemma fdIntegrand_timeShift {n : ℕ} (T : ℝ) (d : Detector n) (h : Fin n → ℂ)
    (dt : ℝ) (j : Fin n) :
    fdIntegrand d (timeShift T h dt) j =
      fdIntegrand d h j *
        Complex.exp ((2 * Real.pi * ((j : ℕ) : ℝ) / T * dt : ℝ) * I) := by
  unfold fdIntegrand timeShift
  by_cases hm : d.mask j
  · simp only [hm, if_true]
    ring
  · simp [hm]

/-- Helper: a purely imaginary exponential has unit square modulus. -/
lemma normSq_exp_real_mul_I (x : ℝ) :
    Complex.normSq (Complex.exp ((x : ℝ) * I)) = 1 := by
  rw [Complex.normSq_eq_abs, Complex.abs_exp_ofReal_mul_I, one_pow]

/-- Helper: the optimal SNR is invariant under any per-bin unit factor. -/
lemma optimal_snr_squared_mul_unit {n : ℕ} (T : ℝ) (d : Detector n)
    (h : Fin n → ℂ) (c : Fin n → ℂ) (hc : ∀ j, Complex.normSq (c j) = 1) :
    optimal_snr_squared T d (fun j => h j * c j) = optimal_snr_squared T d h := by
  unfold optimal_snr_squared
  congr 1
  refine Finset.sum_congr rfl fun j _ => ?_
  by_cases hm : d.mask j
  · simp only [hm, if_true, Complex.normSq_mul, hc j, mul_one]
  · simp [hm]

/-- Helper: the optimal SNR is phase-rotation invariant (spec 4.3). -/
lemma optimal_snr_squared_phaseRotate {n : ℕ} (T : ℝ) (d : Detector n)
    (h : Fin n → ℂ) (φ : ℝ) :
    optimal_snr_squared T d (phaseRotate h φ) = optimal_snr_squared T d h :=
  optimal_snr_squared_mul_unit T d h _ fun _ => normSq_exp_real_mul_I _

/-- Helper: the optimal SNR is time-shift invariant (spec 4.3). -/
lemma optimal_snr_squared_timeShift {n : ℕ} (T : ℝ) (d : Detector n)
    (h : Fin n → ℂ) (dt : ℝ) :
    optimal_snr_squared T d (timeShift T h dt) = optimal_snr_squared T d h :=
  optimal_snr_squared_mul_unit T d h _ fun _ => normSq_exp_real_mul_I _

/-- Helper: `snrSumHalf` is phase-rotation invariant. -/
lemma snrSumHalf_phaseRotate {m n : ℕ} (T : ℝ) (dets : Fin m → Detector n)
    (sig : Fin m → Fin n → ℂ) (φ : ℝ) :
    snrSumHalf T dets (fun i => phaseRotate (sig i) φ) = snrSumHalf T dets sig := by
  unfold snrSumHalf
  congr 1
  exact Finset.sum_congr rfl fun i _ => optimal_snr_squared_phaseRotate T _ _ φ

/-- Helper: `snrSumHalf` is time-shift invariant. -/
lemma snrSumHalf_timeShift {m n : ℕ} (T : ℝ) (dets : Fin m → Detector n)
    (sig : Fin m → Fin n → ℂ) (dt : ℝ) :
    snrSumHalf T dets (fun i => timeShift T (sig i) dt) = snrSumHalf T dets sig := by
  unfold snrSumHalf
  congr 1
  exact Finset.sum_congr rfl fun i _ => optimal_snr_squared_timeShift T _ _ dt

/-- Helper: `d_inner_h` rotates with the phase factor. -/
lemma d_inner_h_phaseRotate {n : ℕ} (T : ℝ) (d : Detector n) (h : Fin n → ℂ)
    (φ : ℝ) :
    d_inner_h T d (phaseRotate h φ) =
      d_inner_h T d h * Complex.exp ((-(2 * φ) : ℝ) * I) := by
  unfold d_inner_h
  rw [Finset.sum_congr rfl fun j _ => fdIntegrand_phaseRotate d h φ j,
    ← Finset.sum_mul]
  ring

/-- Helper: the discrete transform rotates with the phase factor. -/
lemma dftMatchedFilter_phaseRotate {n : ℕ} (T : ℝ) (N : ℕ) (d : Detector n)
    (h : Fin n → ℂ) (φ : ℝ) (k : ℕ) :
    dftMatchedFilter T N d (phaseRotate h φ) k =
      dftMatchedFilter T N d h k * Complex.exp ((-(2 * φ) : ℝ) * I) := by
  unfold dftMatchedFilter
  rw [Finset.sum_congr rfl fun j _ => by rw [fdIntegrand_phaseRotate d h φ j]]
  rw [Finset.sum_congr rfl fun j _ => by
    show fdIntegrand d h j * Complex.exp ((-(2 * φ) : ℝ) * I) *
        Complex.exp ((2 * Real.pi * ((j : ℕ) : ℝ) * (k : ℝ) / (N : ℝ) : ℝ) * I) =
      fdIntegrand d h j *
        Complex.exp ((2 * Real.pi * ((j : ℕ) : ℝ) * (k : ℝ) / (N : ℝ) : ℝ) * I) *
        Complex.exp ((-(2 * φ) : ℝ) * I)
    ring]
  rw [← Finset.sum_mul]
  ring

/-- Helper: the inverse-transform evaluation at sample `k` coincides with the
direct matched filter of the signal time-shifted by `k * T / N` (the
correctness of the spec-4.3 FFT strategy at its native samples). -/
lemma dftMatchedFilter_eq_timeShift {n : ℕ} {T : ℝ} (hT : T ≠ 0) (N : ℕ)
    (d : Detector n) (h : Fin n → ℂ) (k : ℕ) :
    dftMatchedFilter T N d h k =
      d_inner_h T d (timeShift T h ((k : ℝ) * T / (N : ℝ))) := by
  unfold dftMatchedFilter d_inner_h
  congr 1
  refine Finset.sum_congr rfl fun j _ => ?_
  rw [fdIntegrand_timeShift]
  have hexp : 2 * Real.pi * ((j : ℕ) : ℝ) / T * ((k : ℝ) * T / (N : ℝ)) =
      2 * Real.pi * ((j : ℕ) : ℝ) * (k : ℝ) / (N : ℝ) := by
    rcases eq_or_ne ((N : ℕ) : ℝ) 0 with hN | hN
    · rw [hN, div_zero, div_zero, mul_zero]
    · field_simp
      ring
  rw [hexp]

/-- Helper: the real part of a phase-rotated complex number. -/
lemma re_mul_exp_neg (z : ℂ) (φ : ℝ) :
    (z * Complex.exp ((-(2 * φ) : ℝ) * I)).re =
      z.re * Real.cos (2 * φ) + z.im * Real.sin (2 * φ) := by
  rw [Complex.mul_re, Complex.exp_ofReal_mul_I_re, Complex.exp_ofReal_mul_I_im,
    Real.cos_neg, Real.sin_neg]
  ring

/-- Helper: the basic log likelihood ratio of the phase-rotated network
signal, in terms of the unrotated network inner product. -/
lemma basicLogLRatio_phaseRotate {m n : ℕ} (T : ℝ) (dets : Fin m → Detector n)
    (sig : Fin m → Fin n → ℂ) (φ : ℝ) :
    basicLogLRatio T dets (fun i => phaseRotate (sig i) φ) =
      (∑ i, d_inner_h T (dets i) (sig i)).re * Real.cos (2 * φ) +
        (∑ i, d_inner_h T (dets i) (sig i)).im * Real.sin (2 * φ) -
        snrSumHalf T dets sig := by
  unfold basicLogLRatio
  rw [Finset.sum_sub_distrib]
  have h1 : ∀ i : Fin m, (d_inner_h T (dets i) (phaseRotate (sig i) φ)).re =
      (d_inner_h T (dets i) (sig i)).re * Real.cos (2 * φ) +
        (d_inner_h T (dets i) (sig i)).im * Real.sin (2 * φ) := fun i => by
    rw [d_inner_h_phaseRotate, re_mul_exp_neg]
  rw [Finset.sum_congr rfl fun i _ => h1 i, Finset.sum_add_distrib,
    ← Finset.sum_mul, ← Finset.sum_mul, ← Complex.re_sum, ← Complex.im_sum]
  have h2 : ∑ i, optimal_snr_squared T (dets i) (phaseRotate (sig i) φ) / 2 =
      snrSumHalf T dets sig := by
    rw [← Finset.sum_div, snrSumHalf]
    congr 1
    exact Finset.sum_congr rfl fun i _ => optimal_snr_squared_phaseRotate T _ _ φ
  rw [h2]

/-- Helper: the Bessel generating integral — integrating the exponential of
the real part of a uniformly phase-rotated complex number over a full
rotation gives the modified Bessel function of its modulus. -/
lemma integral_exp_rotate (z : ℂ) :
    (∫ φ in (0:ℝ)..(2 * Real.pi),
      Real.exp (z.re * Real.cos (2 * φ) + z.im * Real.sin (2 * φ))) =
      2 * Real.pi * besselI0 (Complex.abs z) := by
  have hre : z.re = Complex.abs z * Real.cos (Complex.arg z) :=
    (Complex.abs_mul_cos_arg z).symm
  have him : z.im = Complex.abs z * Real.sin (Complex.arg z) :=
    (Complex.abs_mul_sin_arg z).symm
  set r : ℝ := Complex.abs z with hr
  set α : ℝ := Complex.arg z with hα
  have hpt : ∀ φ : ℝ, z.re * Real.cos (2 * φ) + z.im * Real.sin (2 * φ) =
      r * Real.cos (2 * φ - α) := by
    intro φ
    rw [hre, him, Real.cos_sub]
    ring
  have hcont : Continuous fun u : ℝ => Real.exp (r * Real.cos (u - α)) :=
    Real.continuous_exp.comp
      (continuous_const.mul (Real.continuous_cos.comp
        (continuous_id.sub continuous_const)))
  have hint : ∀ t₁ t₂ : ℝ, IntervalIntegrable
      (fun u => Real.exp (r * Real.cos (u - α))) MeasureTheory.volume t₁ t₂ :=
    fun t₁ t₂ => hcont.intervalIntegrable t₁ t₂
  have hper : Function.Periodic
      (fun u : ℝ => Real.exp (r * Real.cos (u - α))) (2 * Real.pi) := by
    intro u
    have harg : u + 2 * Real.pi - α = u - α + 2 * Real.pi := by ring
    simp only
    rw [harg, Real.cos_add_two_pi]
  have hper0 : Function.Periodic
      (fun v : ℝ => Real.exp (r * Real.cos v)) (2 * Real.pi) := by
    intro v
    simp only
    rw [Real.cos_add_two_pi]
  calc
    (∫ φ in (0:ℝ)..(2 * Real.pi),
        Real.exp (z.re * Real.cos (2 * φ) + z.im * Real.sin (2 * φ)))
      = ∫ φ in (0:ℝ)..(2 * Real.pi), Real.exp (r * Real.cos (2 * φ - α)) :=
        intervalIntegral.integral_congr fun φ _ => by rw [hpt φ]
    _ = (2:ℝ)⁻¹ • ∫ u in (2*(0:ℝ))..(2*(2*Real.pi)),
          Real.exp (r * Real.cos (u - α)) :=
        intervalIntegral.integral_comp_mul_left
          (fun u => Real.exp (r * Real.cos (u - α))) two_ne_zero
    _ = (2:ℝ)⁻¹ * ∫ u in (0:ℝ)..(2*Real.pi + 2*Real.pi),
          Real.exp (r * Real.cos (u - α)) := by
        rw [smul_eq_mul]
        have hb1 : (2*(0:ℝ)) = 0 := by norm_num
        have hb2 : (2*(2*Real.pi) : ℝ) = 2*Real.pi + 2*Real.pi := by ring
        rw [hb1, hb2]
    _ = (2:ℝ)⁻¹ * ((∫ u in (0:ℝ)..(2*Real.pi),
          Real.exp (r * Real.cos (u - α))) +
          ∫ u in (0:ℝ)..(0 + 2*Real.pi), Real.exp (r * Real.cos (u - α))) := by
        rw [hper.intervalIntegral_add_eq_add 0 (2*Real.pi) hint]
    _ = ∫ u in (0:ℝ)..(2*Real.pi), Real.exp (r * Real.cos (u - α)) := by
        rw [zero_add]
        ring
    _ = ∫ v in (0:ℝ)-α..(2*Real.pi)-α, Real.exp (r * Real.cos v) :=
        intervalIntegral.integral_comp_sub_right
          (fun v => Real.exp (r * Real.cos v)) α
    _ = ∫ v in (-α:ℝ)..(-α + 2*Real.pi), Real.exp (r * Real.cos v) := by
        have h1 : (0:ℝ) - α = -α := by ring
        have h2 : 2*Real.pi - α = -α + 2*Real.pi := by ring
        rw [h1, h2]
    _ = ∫ v in (0:ℝ)..(0 + 2*Real.pi), Real.exp (r * Real.cos v) :=
        hper0.intervalIntegral_add_eq (-α) 0
    _ = 2 * Real.pi * besselI0 r := by
        rw [besselI0, zero_add]
        have hπ : (2 * Real.pi : ℝ) ≠ 0 := ne_of_gt Real.two_pi_pos
        field_simp

/-- Helper: the Bessel integral is strictly positive. -/
lemma besselI0_pos (x : ℝ) : 0 < besselI0 x := by
  rw [besselI0]
  have hcont : Continuous fun θ : ℝ => Real.exp (x * Real.cos θ) :=
    Real.continuous_exp.comp (continuous_const.mul Real.continuous_cos)
  have hpos : 0 < ∫ θ in (0:ℝ)..(2*Real.pi), Real.exp (x * Real.cos θ) :=
    intervalIntegral.intervalIntegral_pos_of_pos
      (hcont.intervalIntegrable _ _) (fun t => Real.exp_pos _) Real.two_pi_pos
  exact mul_pos (by positivity) hpos

/-- Helper: the phase-marginal integral with the invariant SNR term taken
along. -/
lemma integral_exp_rotate_sub (z : ℂ) (c : ℝ) :
    (∫ φ in (0:ℝ)..(2 * Real.pi),
      Real.exp (z.re * Real.cos (2 * φ) + z.im * Real.sin (2 * φ) - c)) =
      Real.exp (-c) * (2 * Real.pi * besselI0 (Complex.abs z)) := by
  have hsplit : ∀ φ : ℝ,
      Real.exp (z.re * Real.cos (2 * φ) + z.im * Real.sin (2 * φ) - c) =
        Real.exp (z.re * Real.cos (2 * φ) + z.im * Real.sin (2 * φ)) *
          Real.exp (-c) := fun φ => by
    rw [← Real.exp_add]
    ring_nf
  rw [intervalIntegral.integral_congr fun φ _ => hsplit φ,
    intervalIntegral.integral_mul_const, integral_exp_rotate]
  ring

/-- Helper: the brute-force phase marginal equals the Bessel closed form. -/
lemma brutePhaseMarg_eq {m n : ℕ} (T : ℝ) (dets : Fin m → Detector n)
    (sig : Fin m → Fin n → ℂ) :
    brutePhaseMarg T dets sig = phaseMargLogLRatio T dets sig := by
  rw [brutePhaseMarg,
    intervalIntegral.integral_congr
      (g := fun φ => Real.exp
        ((∑ i, d_inner_h T (dets i) (sig i)).re * Real.cos (2 * φ) +
          (∑ i, d_inner_h T (dets i) (sig i)).im * Real.sin (2 * φ) -
          snrSumHalf T dets sig))
      (fun φ _ => by rw [basicLogLRatio_phaseRotate]),
    integral_exp_rotate_sub]
  have hπ : (2 * Real.pi : ℝ) ≠ 0 := ne_of_gt Real.two_pi_pos
  have hred : (1 / (2 * Real.pi)) *
      (Real.exp (-snrSumHalf T dets sig) *
        (2 * Real.pi * besselI0 (Complex.abs (∑ i, d_inner_h T (dets i) (sig i))))) =
      Real.exp (-snrSumHalf T dets sig) *
        besselI0 (Complex.abs (∑ i, d_inner_h T (dets i) (sig i))) := by
    field_simp
    ring
  rw [hred, Real.log_mul (Real.exp_ne_zero _) (ne_of_gt (besselI0_pos _)),
    Real.log_exp, phaseMargLogLRatio]
  ring

/-- Claim C4: for a likelihood constructed with phase marginalization
enabled, `log_likelihood_ratio()` equals the closed form
`log(I0(abs(sum_detectors d_inner_h))) - (1/2) * sum_detectors
optimal_snr_squared`, and this equals the brute-force integral of
`exp(log_likelihood_ratio(phase))` over `[0, 2*pi)` normalized by `2*pi` and
log-transformed (the quantity the 1000-point trapezoidal grid approximates)
— exactly, hence within 0.5. -/
theorem phase_marginalization_closed_form {P : Type} {m n : ℕ}
    (L : GravitationalWaveTransient P m n) (θ : P)
    (sig : Fin m → Fin n → ℂ) (hsig : L.signalFor θ = some sig)
    (ht : L.time_marginalization = false)
    (hph : L.phase_marginalization = true) :
    L.log_likelihood_ratio θ =
      Real.log (besselI0 (Complex.abs
        (∑ i, d_inner_h L.duration (L.dets i) (sig i)))) -
        (∑ i, optimal_snr_squared L.duration (L.dets i) (sig i)) / 2 ∧
    |L.log_likelihood_ratio θ - brutePhaseMarg L.duration L.dets sig| ≤ 1/2 := by
  have hval : L.log_likelihood_ratio θ = phaseMargLogLRatio L.duration L.dets sig := by
    simp only [GravitationalWaveTransient.log_likelihood_ratio, hsig, ht, hph,
      Bool.false_eq_true, if_false, if_true]
  constructor
  · rw [hval, phaseMargLogLRatio, snrSumHalf]
  · rw [hval, brutePhaseMarg_eq, sub_self, abs_zero]
    norm_num

/-- Witness for C4: the closed form and brute-force agreement evaluated on a
concrete phase-marginalizing facade. -/
theorem phase_marginalization_closed_form_witness :
    facadePhase.log_likelihood_ratio () =
      Real.log (besselI0 (Complex.abs
        (∑ i, d_inner_h facadePhase.duration (facadePhase.dets i)
          (trivialSignal i)))) -
        (∑ i, optimal_snr_squared facadePhase.duration (facadePhase.dets i)
          (trivialSignal i)) / 2 ∧
    |facadePhase.log_likelihood_ratio () -
      brutePhaseMarg facadePhase.duration facadePhase.dets trivialSignal| ≤ 1/2 :=
  phase_marginalization_closed_form facadePhase () trivialSignal rfl rfl rfl

/-- Helper: pointwise congruence for the uniform trapezoidal rule. -/
lemma utrapz_congr (dx : ℝ) (N : ℕ) {v w : ℕ → ℝ} (h : ∀ k, v k = w k) :
    utrapz dx N v = utrapz dx N w := by
  unfold utrapz
  exact Finset.sum_congr rfl fun k _ => by rw [h k, h (k + 1)]

/-- Helper: the basic log likelihood ratio of the network signal shifted to
native time sample `k` equals the inverse-transform evaluation used by the
engine. -/
lemma basicLogLRatio_timeShift {m n : ℕ} {T : ℝ} (hT : T ≠ 0) (N : ℕ)
    (dets : Fin m → Detector n) (sig : Fin m → Fin n → ℂ) (k : ℕ) :
    basicLogLRatio T dets
        (fun i => timeShift T (sig i) ((k : ℝ) * T / (N : ℝ))) =
      (∑ i, (dftMatchedFilter T N (dets i) (sig i) k).re) -
        snrSumHalf T dets sig := by
  unfold basicLogLRatio
  rw [Finset.sum_sub_distrib]
  congr 1
  · refine Finset.sum_congr rfl fun i _ => ?_
    rw [dftMatchedFilter_eq_timeShift hT]
  · rw [← Finset.sum_div, snrSumHalf]
    congr 1
    exact Finset.sum_congr rfl fun i _ => optimal_snr_squared_timeShift T _ _ _

/-- Helper: the brute-force time-marginalization reference on the native grid
equals the engine's FFT-based value. -/
lemma bruteTimeMarg_eq {m n : ℕ} {T : ℝ} (hT : T ≠ 0) (N : ℕ)
    (dets : Fin m → Detector n) (sig : Fin m → Fin n → ℂ) (D : ℝ) :
    bruteTimeMarg T N dets sig D = timeMargLogLRatio T N dets sig D := by
  rw [bruteTimeMarg, timeMargLogLRatio]
  congr 1
  congr 1
  exact utrapz_congr _ _ fun k => by rw [basicLogLRatio_timeShift hT]

/-- Claim C3: for a likelihood constructed with time marginalization enabled
and a uniform time prior, the FFT-based time-marginalized
`log_likelihood_ratio()` equals the naive reference computation — the
trapezoidal integral of `exp(log_likelihood_ratio(dt))` over the fine uniform
grid of native samples spanning the time prior, divided by the prior's
duration and log-transformed — exactly, hence within 0.5 in log-likelihood
units. -/
theorem time_marginalization_matches_brute_force {P : Type} {m n : ℕ}
    (L : GravitationalWaveTransient P m n) (θ : P)
    (sig : Fin m → Fin n → ℂ) (hsig : L.signalFor θ = some sig)
    (ht : L.time_marginalization = true)
    (hph : L.phase_marginalization = false)
    (hT : L.duration ≠ 0) :
    |L.log_likelihood_ratio θ -
      bruteTimeMarg L.duration L.nTimeSamples L.dets sig L.priorDuration| ≤
      1/2 := by
  have hval : L.log_likelihood_ratio θ =
      timeMargLogLRatio L.duration L.nTimeSamples L.dets sig L.priorDuration := by
    simp only [GravitationalWaveTransient.log_likelihood_ratio, hsig, ht, hph,
      Bool.false_eq_true, if_false, if_true]
  rw [hval, bruteTimeMarg_eq hT, sub_self, abs_zero]
  norm_num

/-- Witness for C3: the agreement evaluated on a concrete time-marginalizing
facade. -/
theorem time_marginalization_matches_brute_force_witness :
    |facadeTime.log_likelihood_ratio () -
      bruteTimeMarg facadeTime.duration facadeTime.nTimeSamples facadeTime.dets
        trivialSignal facadeTime.priorDuration| ≤ 1/2 :=
  time_marginalization_matches_brute_force facadeTime () trivialSignal rfl rfl
    rfl one_ne_zero

/-- Helper: the phase-marginalized ratio of the network signal shifted to
native time sample `k`, in terms of the engine's inverse-transform values
(the composability of spec 4.3: the Bessel closed form applied to each
time-shifted network inner product). -/
lemma phaseMargLogLRatio_timeShift {m n : ℕ} {T : ℝ} (hT : T ≠ 0) (N : ℕ)
    (dets : Fin m → Detector n) (sig : Fin m → Fin n → ℂ) (k : ℕ) :
    phaseMargLogLRatio T dets
        (fun i => timeShift T (sig i) ((k : ℝ) * T / (N : ℝ))) =
      Real.log (besselI0 (Complex.abs
        (∑ i, dftMatchedFilter T N (dets i) (sig i) k))) -
        snrSumHalf T dets sig := by
  unfold phaseMargLogLRatio
  rw [snrSumHalf_timeShift]
  congr 3
  exact congrArg Complex.abs (Finset.sum_congr rfl fun i _ =>
    (dftMatchedFilter_eq_timeShift hT N (dets i) (sig i) k).symm)

/-- Helper: the brute-force time integral of the phase-marginalized
likelihood on the native grid equals the jointly marginalized engine
value. -/
lemma bruteTimeOfPhaseMarg_eq {m n : ℕ} {T : ℝ} (hT : T ≠ 0) (N : ℕ)
    (dets : Fin m → Detector n) (sig : Fin m → Fin n → ℂ) (D : ℝ) :
    bruteTimeOfPhaseMarg T N dets sig D = timePhaseMargLogLRatio T N dets sig D := by
  rw [bruteTimeOfPhaseMarg, timePhaseMargLogLRatio]
  exact congrArg Real.log (congrArg (· / D) (utrapz_congr _ _ fun k =>
    congrArg Real.exp (phaseMargLogLRatio_timeShift hT N dets sig k)))

/-- Helper: the uniform trapezoidal rule of strictly positive values on at
least two grid points is strictly positive. -/
lemma utrapz_pos {dx : ℝ} (hdx : 0 < dx) {N : ℕ} (hN : 2 ≤ N) {v : ℕ → ℝ}
    (hv : ∀ k, 0 < v k) : 0 < utrapz dx N v := by
  unfold utrapz
  apply Finset.sum_pos
  · intro k _
    exact div_pos (mul_pos hdx (add_pos (hv k) (hv (k + 1)))) two_pos
  · refine Finset.nonempty_range_iff.mpr ?_
    omega

/-- Helper: a constant factor moves out of the uniform trapezoidal rule. -/
lemma utrapz_const_mul (dx : ℝ) (N : ℕ) (a : ℝ) (v : ℕ → ℝ) :
    utrapz dx N (fun k => a * v k) = a * utrapz dx N v := by
  unfold utrapz
  rw [Finset.mul_sum]
  exact Finset.sum_congr rfl fun k _ => by ring

/-- Helper: the interval integral commutes with the uniform trapezoidal rule
of continuous integrands. -/
lemma intervalIntegral_utrapz {dx : ℝ} {N : ℕ} {F : ℕ → ℝ → ℝ}
    (hF : ∀ k, Continuous (F k)) (a b : ℝ) :
    (∫ φ in a..b, utrapz dx N (fun k => F k φ)) =
      utrapz dx N (fun k => ∫ φ in a..b, F k φ) := by
  unfold utrapz
  rw [intervalIntegral.integral_finset_sum]
  · refine Finset.sum_congr rfl fun k _ => ?_
    rw [intervalIntegral.integral_div, intervalIntegral.integral_const_mul,
      intervalIntegral.integral_add ((hF k).intervalIntegrable _ _)
        ((hF (k + 1)).intervalIntegrable _ _)]
  · intro k _
    exact ((continuous_const.mul ((hF k).add (hF (k + 1)))).div_const 2).intervalIntegrable _ _

/-- Helper: the real part of the inverse-transform network sum after a phase
rotation of the signal. -/
lemma sum_dft_re_phaseRotate {m n : ℕ} (T : ℝ) (N : ℕ)
    (dets : Fin m → Detector n) (sig : Fin m → Fin n → ℂ) (φ : ℝ) (k : ℕ) :
    (∑ i, (dftMatchedFilter T N (dets i) (phaseRotate (sig i) φ) k).re) =
      (∑ i, dftMatchedFilter T N (dets i) (sig i) k).re * Real.cos (2 * φ) +
        (∑ i, dftMatchedFilter T N (dets i) (sig i) k).im * Real.sin (2 * φ) := by
  rw [Finset.sum_congr rfl fun i _ => by
    rw [dftMatchedFilter_phaseRotate T N (dets i) (sig i) φ k]]
  rw [← Complex.re_sum, ← Finset.sum_mul, re_mul_exp_neg]

/-- Helper: exponentiating the time-marginalized ratio of the phase-rotated
network signal recovers the per-phase trapezoidal sum (the positivity of the
quadrature makes `exp` and `log` cancel). -/
lemma timeMarg_phaseRotate_exp {m n : ℕ} {T : ℝ} {N : ℕ} {D : ℝ}
    (dets : Fin m → Detector n) (sig : Fin m → Fin n → ℂ) (φ : ℝ)
    (hT : 0 < T) (hN : 2 ≤ N) (hD : 0 < D) :
    Real.exp (timeMargLogLRatio T N dets (fun i => phaseRotate (sig i) φ) D) =
      utrapz (T / N) N (fun k => Real.exp
        ((∑ i, dftMatchedFilter T N (dets i) (sig i) k).re * Real.cos (2 * φ) +
          (∑ i, dftMatchedFilter T N (dets i) (sig i) k).im * Real.sin (2 * φ) -
          snrSumHalf T dets sig)) / D := by
  have hcong : ∀ k : ℕ,
      Real.exp ((∑ i, (dftMatchedFilter T N (dets i) (phaseRotate (sig i) φ) k).re) -
        snrSumHalf T dets (fun i => phaseRotate (sig i) φ)) =
      Real.exp ((∑ i, dftMatchedFilter T N (dets i) (sig i) k).re * Real.cos (2 * φ) +
        (∑ i, dftMatchedFilter T N (dets i) (sig i) k).im * Real.sin (2 * φ) -
        snrSumHalf T dets sig) := fun k => by
    rw [sum_dft_re_phaseRotate, snrSumHalf_phaseRotate]
  unfold timeMargLogLRatio
  rw [utrapz_congr (T / N) N hcong]
  refine Real.exp_log ?_
  have hN0 : (0:ℝ) < (N : ℝ) := by
    have hn : 0 < N := by omega
    exact_mod_cast hn
  exact div_pos (utrapz_pos (div_pos hT hN0) hN fun k => Real.exp_pos _) hD

/-- Helper: the brute-force phase integral of the time-marginalized
likelihood equals the jointly marginalized engine value. -/
lemma brutePhaseOfTimeMarg_eq {m n : ℕ} {T : ℝ} {N : ℕ} {D : ℝ}
    (dets : Fin m → Detector n) (sig : Fin m → Fin n → ℂ)
    (hT : 0 < T) (hN : 2 ≤ N) (hD : 0 < D) :
    brutePhaseOfTimeMarg T N dets sig D = timePhaseMargLogLRatio T N dets sig D := by
  have hFcont : ∀ k : ℕ, Continuous fun φ : ℝ =>
      Real.exp ((∑ i, dftMatchedFilter T N (dets i) (sig i) k).re * Real.cos (2 * φ) +
        (∑ i, dftMatchedFilter T N (dets i) (sig i) k).im * Real.sin (2 * φ) -
        snrSumHalf T dets sig) := by
    intro k
    apply Real.continuous_exp.comp
    apply Continuous.sub ?_ continuous_const
    apply Continuous.add
    · exact continuous_const.mul
        (Real.continuous_cos.comp (continuous_const.mul continuous_id))
    · exact continuous_const.mul
        (Real.continuous_sin.comp (continuous_const.mul continuous_id))
  have hπ : (2 * Real.pi : ℝ) ≠ 0 := ne_of_gt Real.two_pi_pos
  calc brutePhaseOfTimeMarg T N dets sig D
      = Real.log ((1 / (2 * Real.pi)) * ∫ φ in (0:ℝ)..(2 * Real.pi),
          utrapz (T / N) N (fun k => Real.exp
            ((∑ i, dftMatchedFilter T N (dets i) (sig i) k).re * Real.cos (2 * φ) +
              (∑ i, dftMatchedFilter T N (dets i) (sig i) k).im * Real.sin (2 * φ) -
              snrSumHalf T dets sig)) / D) := by
        rw [brutePhaseOfTimeMarg]
        exact congrArg Real.log (congrArg (fun t => (1 / (2 * Real.pi)) * t)
          (intervalIntegral.integral_congr fun φ _ =>
            timeMarg_phaseRotate_exp dets sig φ hT hN hD))
    _ = Real.log ((1 / (2 * Real.pi)) *
          (utrapz (T / N) N (fun k => ∫ φ in (0:ℝ)..(2 * Real.pi),
            Real.exp
              ((∑ i, dftMatchedFilter T N (dets i) (sig i) k).re * Real.cos (2 * φ) +
                (∑ i, dftMatchedFilter T N (dets i) (sig i) k).im * Real.sin (2 * φ) -
                snrSumHalf T dets sig)) / D)) := by
        rw [intervalIntegral.integral_div, intervalIntegral_utrapz hFcont]
    _ = Real.log ((1 / (2 * Real.pi)) *
          ((2 * Real.pi) * utrapz (T / N) N (fun k =>
            Real.exp (-snrSumHalf T dets sig) * besselI0 (Complex.abs
              (∑ i, dftMatchedFilter T N (dets i) (sig i) k))) / D)) := by
        have h1 : utrapz (T / N) N (fun k => ∫ φ in (0:ℝ)..(2 * Real.pi),
            Real.exp
              ((∑ i, dftMatchedFilter T N (dets i) (sig i) k).re * Real.cos (2 * φ) +
                (∑ i, dftMatchedFilter T N (dets i) (sig i) k).im * Real.sin (2 * φ) -
                snrSumHalf T dets sig)) =
            (2 * Real.pi) * utrapz (T / N) N (fun k =>
              Real.exp (-snrSumHalf T dets sig) * besselI0 (Complex.abs
                (∑ i, dftMatchedFilter T N (dets i) (sig i) k))) := by
          rw [← utrapz_const_mul]
          refine utrapz_congr _ _ fun k => ?_
          rw [integral_exp_rotate_sub (∑ i, dftMatchedFilter T N (dets i) (sig i) k)
            (snrSumHalf T dets sig)]
          ring
        rw [h1]
    _ = Real.log (utrapz (T / N) N (fun k =>
          Real.exp (-snrSumHalf T dets sig) * besselI0 (Complex.abs
            (∑ i, dftMatchedFilter T N (dets i) (sig i) k))) / D) := by
        congr 1
        field_simp
    _ = timePhaseMargLogLRatio T N dets sig D := by
        rw [timePhaseMargLogLRatio]
        refine congrArg Real.log (congrArg (· / D) (utrapz_congr _ _ fun k => ?_))
        rw [Real.exp_sub, Real.exp_log (besselI0_pos _), Real.exp_neg]
        ring

/-- Claim C5: for a likelihood constructed with both time and phase
marginalization enabled, `log_likelihood_ratio()` equals, within 0.5 in
log-likelihood units (here exactly), both (a) the brute-force time integral
over the time prior of the phase-marginalized likelihood on the fine native
grid, and (b) the brute-force phase integral over `[0, 2*pi)` of the
time-marginalized likelihood, each normalized by the prior width and
log-transformed. -/
theorem time_phase_marginalization_matches_brute_force {P : Type} {m n : ℕ}
    (L : GravitationalWaveTransient P m n) (θ : P)
    (sig : Fin m → Fin n → ℂ) (hsig : L.signalFor θ = some sig)
    (ht : L.time_marginalization = true)
    (hph : L.phase_marginalization = true)
    (hT : 0 < L.duration) (hN : 2 ≤ L.nTimeSamples)
    (hD : 0 < L.priorDuration) :
    |L.log_likelihood_ratio θ -
      bruteTimeOfPhaseMarg L.duration L.nTimeSamples L.dets sig
        L.priorDuration| ≤ 1/2 ∧
    |L.log_likelihood_ratio θ -
      brutePhaseOfTimeMarg L.duration L.nTimeSamples L.dets sig
        L.priorDuration| ≤ 1/2 := by
  have hval : L.log_likelihood_ratio θ =
      timePhaseMargLogLRatio L.duration L.nTimeSamples L.dets sig
        L.priorDuration := by
    simp only [GravitationalWaveTransient.log_likelihood_ratio, hsig, ht, hph,
      if_true]
  constructor
  · rw [hval, bruteTimeOfPhaseMarg_eq (ne_of_gt hT), sub_self, abs_zero]
    norm_num
  · rw [hval, brutePhaseOfTimeMarg_eq L.dets sig hT hN hD, sub_self, abs_zero]
    norm_num

/-- Witness for C5: both agreements evaluated on a concrete jointly
marginalizing facade. -/
theorem time_phase_marginalization_matches_brute_force_witness :
    |facadeTimePhase.log_likelihood_ratio () -
      bruteTimeOfPhaseMarg facadeTimePhase.duration facadeTimePhase.nTimeSamples
        facadeTimePhase.dets trivialSignal facadeTimePhase.priorDuration| ≤ 1/2 ∧
    |facadeTimePhase.log_likelihood_ratio () -
      brutePhaseOfTimeMarg facadeTimePhase.duration facadeTimePhase.nTimeSamples
        facadeTimePhase.dets trivialSignal facadeTimePhase.priorDuration| ≤ 1/2 :=
  time_phase_marginalization_matches_brute_force facadeTimePhase () trivialSignal
    rfl rfl rfl one_pos (le_refl 2) one_pos
